import Mathlib

/-!
Verification development for the schaukasten repository.

The repository contains two generations of the same pipeline:

* the legacy script src/main.py, whose generate_overview function fetches a
  calendar, materializes the events of one week (regular events plus RRULE
  expansion), deduplicates them by UID keeping the entry with the strictly
  greatest LAST-MODIFIED, groups them by date and orders the events of each
  date by DTSTART with a single adjacent-swap pass on SUMMARY for ties;

* the rewritten package src/schaukasten, whose events.py defines
  Title.from_str / Description.from_str (bilingual text splitting backed by
  pydantic field validators), MultiLangEvent.from_ical, and
  EventSpan.from_ical, and whose display.py defines
  RenderableEventSpan.from_eventspan.

Both are embedded below.  Dates are modelled as integer day numbers and
times of day as natural-number minutes; strings are Lean strings (Python
string comparison and Lean string comparison are both lexicographic by
code point).  Pydantic construction of a model with required str fields is
modelled by Except: passing the Python value None to such a field makes
construction fail with a validation error, because the field validators of
events.py run in the default "after" mode, i.e. only after the core str
check has already succeeded.
-/

/-- Stable insertion step: insert a after every element x with x strictly
less than a, hence before the first element that is greater or equal.  This
is the ordering produced by Python's stable sorted. -/
def sortInsert (lt : α → α → Bool) (a : α) : List α → List α
  | [] => [a]
  | b :: l => if lt b a then b :: sortInsert lt a l else a :: b :: l

/-- Stable sort by the strict comparison lt, modelling Python's sorted. -/
def sortStable (lt : α → α → Bool) : List α → List α
  | [] => []
  | a :: l => sortInsert lt a (sortStable lt l)

/-- Stable sort ascending by an integer key, modelling Python's
sorted(key=...). -/
def sortByKey (key : α → Int) (l : List α) : List α :=
  sortStable (fun x y => decide (key x < key y)) l

/-- Prepend a character to the first chunk of a chunk list. -/
def consHead (c : Char) : List (List Char) → List (List Char)
  | [] => [[c]]
  | s :: ss => (c :: s) :: ss

/-- Python str.split with a one-character separator. -/
def splitOnChar (d : Char) : List Char → List (List Char)
  | [] => [[]]
  | c :: rest => if c = d then [] :: splitOnChar d rest else consHead c (splitOnChar d rest)

/-- The characters removed by Python str.strip() (ASCII whitespace). -/
def isPySpace (c : Char) : Bool :=
  c = ' ' || c = '\t' || c = '\n' || c = '\r' || c = Char.ofNat 11 || c = Char.ofNat 12

/-- Python str.strip(): remove leading and trailing whitespace. -/
def pyStrip (l : List Char) : List Char :=
  ((l.dropWhile isPySpace).reverse.dropWhile isPySpace).reverse

/-- Python str.strip() on a string value. -/
def pyStripS (s : String) : String := ⟨pyStrip s.data⟩

/-- A bilingual-description delimiter character, - or _ . -/
def isDelim (c : Char) : Bool := c = '-' || c = '_'

/-- State machine for re.split of the pattern of three or more consecutive
- or _ characters: seg is the reversed current segment, run the reversed
pending delimiter run.  A maximal run of length at least three ends the
current segment; shorter runs flow back into it. -/
def splitRunsAux : List Char → List Char → List Char → List (List Char)
  | [], seg, run =>
      if 3 ≤ run.length then [seg.reverse, []] else [(run ++ seg).reverse]
  | c :: rest, seg, run =>
      if isDelim c then splitRunsAux rest seg (c :: run)
      else if 3 ≤ run.length then seg.reverse :: splitRunsAux rest [c] []
      else splitRunsAux rest (c :: (run ++ seg)) []

/-- re.split of the delimiter-run pattern used by Description.from_str. -/
def splitDelimRuns (l : List Char) : List (List Char) := splitRunsAux l [] []

/-- The negative lookahead of the legacy tag regex: does the text directly
after a < begin with br/ ? -/
def brLookahead : List Char → Bool
  | 'b' :: 'r' :: '/' :: _ => true
  | _ => false

/-- State machine for re.sub of a non-greedy tag pattern with empty
replacement.  buf is the reversed pending text of a potential tag (starting
at a <); a > closes and discards the whole buffered tag, while a newline or
the end of input makes every match attempt inside the buffer fail, so the
buffer is emitted literally.  When keepBr is true the scanner refuses to
open a tag whose body starts with br/, matching the lookahead of the
legacy regex; with keepBr false it models the plain pattern of
Description.from_str, which removes every tag. -/
def stripAux (keepBr : Bool) : List Char → List Char → List Char
  | [], buf => buf.reverse
  | c :: rest, buf =>
      if buf.isEmpty then
        if c = '<' then
          if keepBr && brLookahead rest then c :: stripAux keepBr rest []
          else stripAux keepBr rest [c]
        else c :: stripAux keepBr rest []
      else
        if c = '>' then stripAux keepBr rest []
        else if c = '\n' then buf.reverse ++ c :: stripAux keepBr rest []
        else stripAux keepBr rest (c :: buf)

/-- re.sub removing every tag, as in Description.from_str of events.py. -/
def stripTags (l : List Char) : List Char := stripAux false l []

/-- re.sub removing every tag except those starting with br/, as in the
description cleaning of generate_overview in the legacy main.py. -/
def stripTagsKeepBr (l : List Char) : List Char := stripAux true l []

/-- The text before the first occurrence of pat, when pat occurs; models
the combination of the Python tests pat in s and s.split(pat)[0]. -/
def takeUntilSub (pat : List Char) : List Char → Option (List Char)
  | [] => if pat.isEmpty then some [] else none
  | c :: rest =>
      if pat.isPrefixOf (c :: rest) then some []
      else (takeUntilSub pat rest).map (fun pre => c :: pre)

/-- A recurrence rule, covering the weekly COUNT-limited rules that the
legacy generate_overview expands through dateutil's rrulestr; dateutil
evaluates such a rule from the anchor date, producing the first count dates
spaced seven days apart. -/
inductive Rrule where
  | weekly (count : Nat) : Rrule
deriving DecidableEq, Repr

/-- The Monday-to-Sunday window of generate_overview, as day numbers. -/
structure Window where
  startOfWeek : Int
  endOfWeek : Int
deriving DecidableEq, Repr

/-- One VEVENT of the legacy pipeline: UID (absent UIDs decode to None),
LAST-MODIFIED, SUMMARY, DESCRIPTION, the date and time-of-day portions of
DTSTART and DTEND, and the optional RRULE. -/
structure PyEvent where
  uid : Option String
  lastModified : Int
  summary : String
  description : String
  startDay : Int
  startMin : Nat
  endDay : Int
  endMin : Nat
  rrule : Option Rrule
deriving DecidableEq, Repr

/-- The full DTSTART of an event (date plus time of day); after astimezone
into the single local timezone, two events compare equal exactly when these
pairs are equal. -/
def startKey (e : PyEvent) : Int × Nat := (e.startDay, e.startMin)

/-- Strict comparison of DTSTART values, the key of the per-date sorted
call in generate_overview. -/
def dtLt (x y : PyEvent) : Bool :=
  decide (x.startDay < y.startDay) ||
    (decide (x.startDay = y.startDay) && decide (x.startMin < y.startMin))

/-- event.copy() with DTSTART and DTEND rebuilt from a generated recurrence
date and the original times of day, as in the recurrence loop of
generate_overview. -/
def recurCopy (e : PyEvent) (d : Int) : PyEvent :=
  { e with startDay := d, endDay := d }

/-- rule.between(start_of_week 00:00, end_of_week 23:59:59.999999, inc=True)
followed by the copy loop: the instances of a weekly COUNT rule are the
first count dates seven days apart from the anchor date, restricted to the
window. -/
def expandRrule (w : Window) (e : PyEvent) : Rrule → List PyEvent
  | .weekly count =>
      (List.range count).filterMap (fun (k : Nat) =>
        if w.startOfWeek ≤ e.startDay + 7 * (k : Int) ∧
           e.startDay + 7 * (k : Int) ≤ w.endOfWeek
        then some (recurCopy e (e.startDay + 7 * (k : Int))) else none)

/-- The per-event part of the VEVENT loop of generate_overview: every event
is appended when its start date or its end date falls inside the week, and
an event carrying an RRULE additionally contributes its expanded recurrence
instances. -/
def materializeEvent (w : Window) (e : PyEvent) : List PyEvent :=
  (if (w.startOfWeek ≤ e.startDay ∧ e.startDay ≤ w.endOfWeek) ∨
      (w.startOfWeek ≤ e.endDay ∧ e.endDay ≤ w.endOfWeek)
   then [e] else []) ++
  (match e.rrule with
   | none => []
   | some r => expandRrule w e r)

/-- Python string comparison a < b: lexicographic by code point, used for
the SUMMARY tie-break comparison (Lean's builtin String order does not
evaluate inside the kernel, so the comparison is spelled out). -/
def pyStrLt : List Char → List Char → Bool
  | [], [] => false
  | [], _ :: _ => true
  | _ :: _, [] => false
  | a :: as, b :: bs =>
      if a.toNat < b.toNat then true
      else if b.toNat < a.toNat then false
      else pyStrLt as bs

/-- Membership of a UID in the processed_event_uids set. -/
def pySetContains (s : List (Option String)) (u : Option String) : Bool :=
  s.any (fun v => decide (v = u))

/-- The replacement branch of the duplicate filter: find the first entry of
filtered_events with the same UID and replace it when the incoming event
has a strictly greater LAST-MODIFIED. -/
def replaceIfNewer : List PyEvent → PyEvent → List PyEvent
  | [], _ => []
  | x :: xs, e =>
      if x.uid = e.uid then
        (if x.lastModified < e.lastModified then e else x) :: xs
      else x :: replaceIfNewer xs e

/-- One iteration of the duplicate filter of generate_overview, carrying
filtered_events and processed_event_uids. -/
def dedupStep (st : List PyEvent × List (Option String)) (e : PyEvent) :
    List PyEvent × List (Option String) :=
  if pySetContains st.2 e.uid then (replaceIfNewer st.1 e, st.2)
  else (st.1 ++ [e], st.2 ++ [e.uid])

/-- The duplicate filter of generate_overview over a whole event list. -/
def dedupEvents (events : List PyEvent) : List PyEvent :=
  (events.foldl dedupStep ([], [])).1

/-- Python membership test ev in sorted_events (value equality). -/
def pyMem (x : PyEvent) (l : List PyEvent) : Bool :=
  l.any (fun y => decide (y = x))

/-- The adjacent tie-break pass of generate_overview: walk the start-sorted
list; an element already emitted is skipped; when the next element starts at
the same DTSTART and has a strictly smaller SUMMARY the pair is emitted
swapped, otherwise the element is emitted alone. -/
def tieGo : List PyEvent → List PyEvent → List PyEvent
  | [], acc => acc
  | [ev], acc => if pyMem ev acc then acc else acc ++ [ev]
  | ev :: next :: rest, acc =>
      if pyMem ev acc then tieGo (next :: rest) acc
      else if startKey ev = startKey next ∧
              pyStrLt next.summary.data ev.summary.data = true then
        tieGo (next :: rest) (acc ++ [next, ev])
      else tieGo (next :: rest) (acc ++ [ev])

/-- The per-date ordering of generate_overview: stable sort by DTSTART,
then the adjacent tie-break pass. -/
def sortEventsForDate (events : List PyEvent) : List PyEvent :=
  tieGo (sortStable dtLt events) []

/-- The canonicalization chain of generate_overview for the events of one
date: duplicate filtering by UID, dropping events with an empty SUMMARY,
then the per-date ordering. -/
def canonicalizeDay (l : List PyEvent) : List PyEvent :=
  sortEventsForDate ((dedupEvents l).filter (fun e => decide (¬ e.summary = "")))

/-- The description cleaning of the legacy main.py: remove every tag not
starting with br/. -/
def legacyCleanDescription (s : String) : String := ⟨stripTagsKeepBr s.data⟩

/-- Fifteen underscores, the second legacy language delimiter. -/
def underscores15 : List Char := "_______________".data

/-- Fourteen underscores, the third legacy language delimiter. -/
def underscores14 : List Char := "______________".data

/-- The German (primary) part of a legacy event description: clean the
tags, then take the text before the first ----, else before the first run
of fifteen underscores, else fourteen, else the whole text, exactly as the
t = 0 branch of generate_overview. -/
def legacyDescPrimary (s : String) : String :=
  let d := stripTagsKeepBr s.data
  match takeUntilSub ("----".data) d with
  | some pre => ⟨pre⟩
  | none =>
    match takeUntilSub underscores15 d with
    | some pre => ⟨pre⟩
    | none =>
      match takeUntilSub underscores14 d with
      | some pre => ⟨pre⟩
      | none => ⟨d⟩

/-- The entries of an event list carrying one given UID. -/
def uidFilter (u : Option String) (l : List PyEvent) : List PyEvent :=
  l.filter (fun e => decide (e.uid = u))

/-- Modelled from the spec and claim words: scan a UID group in order,
retaining the current slot holder unless a later entry has a strictly
greater last_modified, in which case it replaces the slot. -/
def specFold (k : PyEvent) (l : List PyEvent) : PyEvent :=
  l.foldl (fun b x => if b.lastModified < x.lastModified then x else b) k

/-- Modelled from the spec and claim words: the retained entries of one UID
group are the single survivor of the replace-on-strictly-newer scan, or
nothing for an empty group. -/
def specRetainedSlot : List PyEvent → List PyEvent
  | [] => []
  | e :: rest => [specFold e rest]

/-- Generalization of specRetainedSlot to a scan that starts from an
already retained slot, used to state the fold invariant of the duplicate
filter. -/
def specMergeSlot : List PyEvent → List PyEvent → List PyEvent
  | [], incoming => specRetainedSlot incoming
  | k :: _, incoming => [specFold k incoming]

/-- The Language enum of schaukasten/types.py; Mathlib already takes the
name Language, so the enum is embedded under the name Lang. -/
inductive Lang where
  | de : Lang
  | en : Lang
deriving DecidableEq, Repr

/-- The Title model of events.py: a LangField whose validators default an
empty German title to "Kein Titel" and an empty English title to the
German one. -/
structure Title where
  de : String
  en : String
deriving DecidableEq, Repr

/-- The Description model of events.py: a LangField whose validators
default an empty German description to "" and an empty English one to the
German text. -/
structure Description where
  de : String
  en : String
deriving DecidableEq, Repr

/-- Pydantic construction of Title from the values passed by
Title.from_str.  The de and en fields are required str fields, so the
Python value None (here: none) fails the core str check before the after
validators can run; a present string then passes through the defaulting
validators. -/
def Title.validateFields : Option String → Option String → Except String Title
  | some d, some e =>
      let de := if d = "" then "Kein Titel" else d
      .ok ⟨de, if e = "" then de else e⟩
  | some _, none => .error "ValidationError: en is not a string"
  | none, _ => .error "ValidationError: de is not a string"

/-- Title.from_str of events.py: split the summary on | , strip each part,
then construct the model with the first part as de and the second (None
when absent) as en. -/
def Title.fromStr (s : String) : Except String Title :=
  let titles := (splitOnChar '|' s.data).map (fun cs => pyStripS ⟨cs⟩)
  Title.validateFields titles[0]? titles[1]?

/-- Pydantic construction of Description from the values passed by
Description.from_str, with the same required-str semantics as for Title. -/
def Description.validateFields : Option String → Option String → Except String Description
  | some d, some e =>
      let de := if d = "" then "" else d
      .ok ⟨de, if e = "" then de else e⟩
  | some _, none => .error "ValidationError: en is not a string"
  | none, _ => .error "ValidationError: de is not a string"

/-- The cleaning step of Description.from_str: remove every tag, then
replace the non-breaking space (code point 160) by an ordinary space. -/
def cleanDescription (s : String) : String :=
  ⟨(stripTags s.data).map (fun c => if c = Char.ofNat 160 then ' ' else c)⟩

/-- The stripped segments of a cleaned description, split on every run of
three or more - or _ characters. -/
def descSegments (s : String) : List String :=
  (splitDelimRuns (cleanDescription s).data).map (fun cs => pyStripS ⟨cs⟩)

/-- Description.from_str of events.py: clean, split on delimiter runs,
strip, then construct the model with the first segment as de and the
second (None when absent) as en. -/
def Description.fromStr (s : String) : Except String Description :=
  let descriptions := descSegments s
  Description.validateFields descriptions[0]? descriptions[1]?

/-- One parsed calendar entry as read by MultiLangEvent.from_ical:
DTSTART, DTEND, SUMMARY, DESCRIPTION, and the LOCATION returned by
ical_event.get, which is None when the entry has no LOCATION field. -/
structure IcalEvent where
  dtstart : Int
  dtend : Int
  summary : String
  description : String
  location : Option String
deriving DecidableEq, Repr

/-- The declared default of the place field of MultiLangEvent. -/
def defaultPlace : String :=
  "Queerreferat an den Aachener Hochschulen e.V.\nGerlachstr. 20-22\n52064 Aachen, DE"

/-- The MultiLangEvent model of events.py. -/
structure MultiLangEvent where
  start : Int
  end_ : Int
  title : Title
  description : Description
  place : String
deriving DecidableEq, Repr

/-- Pydantic construction of MultiLangEvent with respect to the place
argument: an omitted argument (outer none) takes the declared default, a
passed string is accepted, and a passed None (some none) fails the
required-str check of the place field. -/
def MultiLangEvent.construct (start end_ : Int) (title : Title)
    (description : Description) (place : Option (Option String)) :
    Except String MultiLangEvent :=
  match place with
  | none => .ok ⟨start, end_, title, description, defaultPlace⟩
  | some (some p) => .ok ⟨start, end_, title, description, p⟩
  | some none => .error "ValidationError: place is not a string"

/-- MultiLangEvent.from_ical of events.py: build the title and description
models from the raw SUMMARY and DESCRIPTION strings, then construct the
event passing ical_event.get(LOCATION) - which is None for a location-less
entry - explicitly as the place argument. -/
def MultiLangEvent.fromIcal (e : IcalEvent) : Except String MultiLangEvent :=
  match Title.fromStr e.summary with
  | .error m => .error m
  | .ok t =>
    match Description.fromStr e.description with
    | .error m => .error m
    | .ok d => MultiLangEvent.construct e.dtstart e.dtend t d (some e.location)

/-- A parsed calendar document, the entries handed to the external
recurrence-expansion collaborator. -/
abbrev Calendar := List IcalEvent

/-- The EventSpan model of events.py; its events field carries an
AfterValidator sorting by start. -/
structure EventSpan where
  start : Int
  end_ : Int
  events : List MultiLangEvent
deriving DecidableEq, Repr

/-- EventSpan.from_ical of events.py: hand the calendar and the window to
the external recurring_ical_events collaborator (here the parameter
expandBetween, covering the library call and the per-entry conversion) and
wrap whatever it returns, sorted ascending by start through the events
AfterValidator.  No further processing happens in this function. -/
def EventSpan.fromIcal (expandBetween : Calendar → Int → Int → List MultiLangEvent)
    (cal : Calendar) (start end_ : Int) : EventSpan :=
  ⟨start, end_, sortByKey (fun e => e.start) (expandBetween cal start end_)⟩

/-- The RenderableEvent model of display.py. -/
structure RenderableEvent where
  title : String
  description : String
  start : Int
  end_ : Int
  place : String
deriving DecidableEq, Repr

/-- The RenderableEventSpan model of display.py. -/
structure RenderableEventSpan where
  start : Int
  end_ : Int
  lang : Lang
  events : List RenderableEvent
deriving DecidableEq, Repr

/-- event.title.model_dump()[lang]: the string of the requested language
slot of a Title. -/
def Title.dumpGet (t : Title) : Lang → String
  | .de => t.de
  | .en => t.en

/-- event.description.model_dump()[lang]: the string of the requested
language slot of a Description. -/
def Description.dumpGet (d : Description) : Lang → String
  | .de => d.de
  | .en => d.en

/-- The per-occurrence projection built inside from_eventspan: language
slots for title and description, start, end and place passed through. -/
def projectEvent (lang : Lang) (e : MultiLangEvent) : RenderableEvent :=
  ⟨e.title.dumpGet lang, e.description.dumpGet lang, e.start, e.end_, e.place⟩

/-- Python attribute access events.start where events is a list value: the
built-in list type defines no attribute start, so the access raises
AttributeError. -/
def listAttrStart (_ : List RenderableEvent) : Except String Int :=
  .error "AttributeError: list object has no attribute start"

/-- Python attribute access events.end on a list value. -/
def listAttrEnd (_ : List RenderableEvent) : Except String Int :=
  .error "AttributeError: list object has no attribute end"

/-- RenderableEventSpan.from_eventspan of display.py.  The comprehension
rebinds the name events from the EventSpan argument to the freshly built
list of RenderableEvent records, after which the return expression reads
events.start and events.end from that list value. -/
def RenderableEventSpan.fromEventspan (span : EventSpan) (lang : Lang) :
    Except String RenderableEventSpan :=
  let events := span.events.map (projectEvent lang)
  match listAttrStart events, listAttrEnd events with
  | .ok s, .ok e => .ok ⟨s, e, lang, sortByKey (fun r => r.start) events⟩
  | .error m, _ => .error m
  | .ok _, .error m => .error m

/-- Two deliveries of one event, UID x, earlier LAST-MODIFIED first. -/
def c1e1 : PyEvent := ⟨some "x", 1, "S", "D", 0, 0, 0, 0, none⟩

/-- The fresher delivery of the same UID x. -/
def c1e2 : PyEvent := ⟨some "x", 2, "T", "E", 0, 0, 0, 0, none⟩

/-- An event whose SUMMARY sorts after, but whose description sorts before,
the one of c2b; both share the same DTSTART. -/
def c2a : PyEvent := ⟨some "a", 0, "B", "A", 0, 600, 0, 660, none⟩

/-- The same-start partner of c2a with the opposite SUMMARY order. -/
def c2b : PyEvent := ⟨some "b", 0, "A", "B", 0, 600, 0, 660, none⟩

/-- Three distinct events with one DTSTART and SUMMARY values C, B, A. -/
def c3input : List PyEvent :=
  [⟨some "a", 0, "C", "x", 0, 600, 0, 660, none⟩,
   ⟨some "b", 0, "B", "x", 0, 600, 0, 660, none⟩,
   ⟨some "c", 0, "A", "x", 0, 600, 0, 660, none⟩]

/-- A non-recurring event spanning a whole week: start the day before the
window, end the day after. -/
def c4ev : PyEvent := ⟨some "a", 0, "S", "D", -1, 600, 7, 660, none⟩

/-- A non-recurring event inside the window. -/
def c4in : PyEvent := ⟨some "w", 0, "S", "D", 3, 600, 3, 660, none⟩

/-- A weekly recurring event (COUNT=2) whose anchor lies inside the
window. -/
def c5ev : PyEvent := ⟨some "x", 0, "S", "D", 2, 600, 3, 660, some (.weekly 2)⟩

/-- A degenerate occurrence with an empty title, as handed back by the
recurrence-expansion collaborator. -/
def c8ev : MultiLangEvent := ⟨5, 6, ⟨"", ""⟩, ⟨"d", "d"⟩, "P"⟩

/-- A calendar entry without a LOCATION field. -/
def c10ev : IcalEvent := ⟨0, 1, "Filmabend | Movie Night", "Hallo---Hello", none⟩

theorem sortInsert_perm (lt : α → α → Bool) (a : α) (l : List α) :
    (sortInsert lt a l).Perm (a :: l) := by
  induction l with
  | nil => exact List.Perm.refl _
  | cons b l ih =>
    simp only [sortInsert]
    split
    · exact (ih.cons b).trans (List.Perm.swap a b l)
    · exact List.Perm.refl _

theorem sortStable_perm (lt : α → α → Bool) (l : List α) :
    (sortStable lt l).Perm l := by
  induction l with
  | nil => exact List.Perm.refl _
  | cons a l ih =>
    exact (sortInsert_perm lt a (sortStable lt l)).trans (ih.cons a)

theorem sortInsert_pairwise (key : α → Int) (a : α) (l : List α)
    (h : l.Pairwise (fun x y => key x ≤ key y)) :
    (sortInsert (fun x y => decide (key x < key y)) a l).Pairwise
      (fun x y => key x ≤ key y) := by
  induction l with
  | nil => simp [sortInsert]
  | cons b l ih =>
    rw [List.pairwise_cons] at h
    obtain ⟨hb, hl⟩ := h
    simp only [sortInsert]
    split
    case isTrue hlt =>
      rw [List.pairwise_cons]
      refine ⟨?_, ih hl⟩
      intro x hx
      rcases List.mem_cons.mp ((sortInsert_perm _ a l).mem_iff.mp hx) with hxa | hxl
      · subst hxa
        have := of_decide_eq_true hlt
        omega
      · exact hb x hxl
    case isFalse hge =>
      have hab : key a ≤ key b := by
        have hnot : ¬ key b < key a := fun hh => hge (decide_eq_true hh)
        omega
      rw [List.pairwise_cons]
      refine ⟨?_, List.pairwise_cons.mpr ⟨hb, hl⟩⟩
      intro x hx
      rcases List.mem_cons.mp hx with hxb | hxl
      · subst hxb; exact hab
      · exact le_trans hab (hb x hxl)

theorem sortByKey_pairwise (key : α → Int) (l : List α) :
    (sortByKey key l).Pairwise (fun x y => key x ≤ key y) := by
  induction l with
  | nil => simp [sortByKey, sortStable]
  | cons a l ih =>
    simpa [sortByKey, sortStable] using sortInsert_pairwise key a _ ih

theorem stripAux_copy (kb : Bool) (a r : List Char) (h : '<' ∉ a) :
    stripAux kb (a ++ r) [] = a ++ stripAux kb r [] := by
  induction a with
  | nil => rfl
  | cons c a ih =>
    have hc : ¬ c = '<' := by
      intro hh
      exact h (by rw [hh]; exact List.mem_cons_self '<' a)
    have ha : '<' ∉ a := fun hm => h (List.mem_cons_of_mem c hm)
    simp only [List.cons_append, stripAux, List.isEmpty_nil, if_true, if_neg hc]
    exact congrArg (fun x => c :: x) (ih ha)

theorem stripAux_copy_all (kb : Bool) (a : List Char) (h : '<' ∉ a) :
    stripAux kb a [] = a := by
  have := stripAux_copy kb a [] h
  simpa [stripAux] using this

theorem stripAux_consume (kb : Bool) (t : List Char) (b : List Char) :
    ∀ buf : List Char, buf.isEmpty = false → '>' ∉ t → '\n' ∉ t →
    stripAux kb (t ++ '>' :: b) buf = stripAux kb b [] := by
  induction t with
  | nil =>
    intro buf hb _ _
    simp [stripAux, hb]
  | cons c t ih =>
    intro buf hb ht hn
    simp only [List.mem_cons, not_or] at ht hn
    obtain ⟨ht1, ht2⟩ := ht
    obtain ⟨hn1, hn2⟩ := hn
    have hc1 : ¬ c = '>' := fun hh => ht1 hh.symm
    have hc2 : ¬ c = '\n' := fun hh => hn1 hh.symm
    simp only [List.cons_append, stripAux, hb, Bool.false_eq_true, if_false,
      if_neg hc1, if_neg hc2]
    exact ih (c :: buf) rfl (by simpa using ht2) (by simpa using hn2)

theorem splitRunsAux_ne_nil : ∀ (l seg run : List Char), splitRunsAux l seg run ≠ [] := by
  intro l
  induction l with
  | nil =>
    intro seg run
    simp only [splitRunsAux]
    split <;> simp
  | cons c rest ih =>
    intro seg run
    simp only [splitRunsAux]
    split
    · exact ih seg (c :: run)
    · split
      · simp
      · exact ih (c :: (run ++ seg)) []

theorem uidFilter_nil (u : Option String) : uidFilter u [] = [] := rfl

theorem uidFilter_cons (u : Option String) (x : PyEvent) (l : List PyEvent) :
    uidFilter u (x :: l) =
      if x.uid = u then x :: uidFilter u l else uidFilter u l := by
  simp only [uidFilter, List.filter_cons]
  by_cases hx : x.uid = u
  · simp [hx]
  · simp [hx]

theorem uidFilter_append (u : Option String) (l1 l2 : List PyEvent) :
    uidFilter u (l1 ++ l2) = uidFilter u l1 ++ uidFilter u l2 := by
  simp [uidFilter, List.filter_append]

theorem replaceIfNewer_filter_ne (l : List PyEvent) (e : PyEvent)
    (u : Option String) (h : ¬ e.uid = u) :
    uidFilter u (replaceIfNewer l e) = uidFilter u l := by
  induction l with
  | nil => rfl
  | cons x xs ih =>
    simp only [replaceIfNewer]
    by_cases hx : x.uid = e.uid
    · rw [if_pos hx]
      have h1 : (if x.lastModified < e.lastModified then e else x).uid = e.uid := by
        split
        · rfl
        · exact hx
      rw [uidFilter_cons, uidFilter_cons]
      rw [if_neg (h1 ▸ h), if_neg (hx ▸ h)]
    · rw [if_neg hx]
      rw [uidFilter_cons, uidFilter_cons, ih]

theorem replaceIfNewer_filter_eq (l : List PyEvent) (e k : PyEvent)
    (h : uidFilter e.uid l = [k]) :
    uidFilter e.uid (replaceIfNewer l e) =
      [if k.lastModified < e.lastModified then e else k] := by
  induction l with
  | nil => simp [uidFilter_nil] at h
  | cons x xs ih =>
    rw [uidFilter_cons] at h
    simp only [replaceIfNewer]
    by_cases hx : x.uid = e.uid
    · rw [if_pos hx] at h
      injection h with hxk hnil
      have hyuid : (if x.lastModified < e.lastModified then e else x).uid = e.uid := by
        split
        · rfl
        · exact hx
      rw [if_pos hx, uidFilter_cons, if_pos hyuid, hnil]
      subst hxk
      rfl
    · rw [if_neg hx] at h
      rw [if_neg hx]
      rw [uidFilter_cons, if_neg hx]
      exact ih h

theorem uidFilter_ne_nil_iff (u : Option String) (l : List PyEvent) :
    uidFilter u l ≠ [] ↔ ∃ x ∈ l, x.uid = u := by
  induction l with
  | nil => simp [uidFilter_nil]
  | cons x xs ih =>
    rw [uidFilter_cons]
    by_cases hx : x.uid = u
    · refine ⟨fun _ => ⟨x, List.mem_cons_self x xs, hx⟩, fun _ => by simp [hx]⟩
    · rw [if_neg hx, ih]
      simp only [List.mem_cons]
      constructor
      · rintro ⟨y, hy, hyu⟩
        exact ⟨y, Or.inr hy, hyu⟩
      · rintro ⟨y, hy | hy, hyu⟩
        · exact absurd (hy ▸ hyu) hx
        · exact ⟨y, hy, hyu⟩

theorem listSingle (l : List PyEvent) (hne : l ≠ []) (hlen : l.length ≤ 1) :
    ∃ k, l = [k] := by
  match l with
  | [] => exact absurd rfl hne
  | [k] => exact ⟨k, rfl⟩
  | k1 :: k2 :: t => rw [List.length_cons, List.length_cons] at hlen; omega

theorem pySetContains_append (s : List (Option String)) (u v : Option String) :
    pySetContains (s ++ [u]) v = (pySetContains s v || decide (u = v)) := by
  simp [pySetContains, List.any_append]

theorem specFold_cons (k e : PyEvent) (l : List PyEvent) :
    specFold k (e :: l) =
      specFold (if k.lastModified < e.lastModified then e else k) l := rfl

theorem uidFilter_one_pos (u : Option String) (e : PyEvent) (h : e.uid = u) :
    uidFilter u [e] = [e] := by
  rw [uidFilter_cons, if_pos h, uidFilter_nil]

theorem uidFilter_one_neg (u : Option String) (e : PyEvent) (h : ¬ e.uid = u) :
    uidFilter u [e] = [] := by
  rw [uidFilter_cons, if_neg h, uidFilter_nil]

theorem dedupGo (todo : List PyEvent) :
    ∀ (flt : List PyEvent) (proc : List (Option String)),
    (∀ v, pySetContains proc v = true ↔ uidFilter v flt ≠ []) →
    (∀ v, (uidFilter v flt).length ≤ 1) →
    ∀ u, uidFilter u (List.foldl dedupStep (flt, proc) todo).1
        = specMergeSlot (uidFilter u flt) (uidFilter u todo) := by
  induction todo with
  | nil =>
    intro flt proc hC hL u
    simp only [List.foldl_nil, uidFilter_nil]
    rcases hf : uidFilter u flt with _ | ⟨k, t⟩
    · rfl
    · have := hL u
      rw [hf] at this
      rw [List.length_cons] at this
      have ht : t = [] := by
        cases t with
        | nil => rfl
        | cons a b => rw [List.length_cons] at this; omega
      subst ht
      rfl
  | cons e rest ih =>
    intro flt proc hC hL u
    rw [List.foldl_cons]
    by_cases hc : pySetContains proc e.uid = true
    · have hstep : dedupStep (flt, proc) e = (replaceIfNewer flt e, proc) := by
        simp [dedupStep, hc]
      rw [hstep]
      have hne : uidFilter e.uid flt ≠ [] := (hC e.uid).mp hc
      obtain ⟨k, hk⟩ := listSingle _ hne (hL e.uid)
      have hC' : ∀ v, pySetContains proc v = true ↔
          uidFilter v (replaceIfNewer flt e) ≠ [] := by
        intro v
        by_cases hv : e.uid = v
        · subst hv
          rw [replaceIfNewer_filter_eq flt e k hk]
          simp only [ne_eq, List.cons_ne_nil, not_false_eq_true, iff_true]
          exact hc
        · rw [replaceIfNewer_filter_ne flt e v hv]
          exact hC v
      have hL' : ∀ v, (uidFilter v (replaceIfNewer flt e)).length ≤ 1 := by
        intro v
        by_cases hv : e.uid = v
        · subst hv
          rw [replaceIfNewer_filter_eq flt e k hk]
          simp
        · rw [replaceIfNewer_filter_ne flt e v hv]
          exact hL v
      rw [ih _ _ hC' hL' u]
      by_cases hu : e.uid = u
      · subst hu
        rw [replaceIfNewer_filter_eq flt e k hk, hk]
        rw [uidFilter_cons, if_pos rfl]
        simp only [specMergeSlot]
        rw [specFold_cons]
      · rw [replaceIfNewer_filter_ne flt e u hu]
        rw [uidFilter_cons, if_neg hu]
    · have hstep : dedupStep (flt, proc) e = (flt ++ [e], proc ++ [e.uid]) := by
        simp [dedupStep, hc]
      rw [hstep]
      have hflt : uidFilter e.uid flt = [] := by
        by_contra hne
        exact hc ((hC e.uid).mpr hne)
      have hC' : ∀ v, pySetContains (proc ++ [e.uid]) v = true ↔
          uidFilter v (flt ++ [e]) ≠ [] := by
        intro v
        rw [pySetContains_append, uidFilter_append]
        by_cases hv : e.uid = v
        · subst hv
          rw [uidFilter_one_pos _ e rfl]
          simp
        · rw [uidFilter_one_neg v e hv, List.append_nil]
          rw [decide_eq_false hv, Bool.or_false]
          exact hC v
      have hL' : ∀ v, (uidFilter v (flt ++ [e])).length ≤ 1 := by
        intro v
        rw [uidFilter_append]
        by_cases hv : e.uid = v
        · subst hv
          rw [uidFilter_one_pos _ e rfl, hflt]
          simp
        · rw [uidFilter_one_neg v e hv, List.append_nil]
          exact hL v
      rw [ih _ _ hC' hL' u]
      rw [uidFilter_append]
      by_cases hu : e.uid = u
      · subst hu
        rw [hflt, uidFilter_one_pos _ e rfl, uidFilter_cons, if_pos rfl]
        simp only [List.nil_append, specMergeSlot, specRetainedSlot]
      · rw [uidFilter_one_neg u e hu, List.append_nil, uidFilter_cons, if_neg hu]

/-- C1: the duplicate filter of generate_overview processes the input in
original order grouped by UID: within every UID group the first entry
encountered is retained, and a later entry with the same UID replaces the
retained slot exactly when its LAST-MODIFIED is strictly greater (the
survivor of a group is the replace-on-strictly-newer scan of the group);
in particular, when a UID occurs exactly twice with last-modified values
T1 < T2, only the T2 entry survives and the T1 entry is dropped. -/
theorem c1_dedup_keeps_strictly_newest :
    (∀ (xs : List PyEvent) (u : Option String),
      uidFilter u (dedupEvents xs) = specRetainedSlot (uidFilter u xs)) ∧
    (∀ (xs : List PyEvent) (u : Option String) (e1 e2 : PyEvent),
      uidFilter u xs = [e1, e2] → e1.lastModified < e2.lastModified →
      uidFilter u (dedupEvents xs) = [e2]) := by
  have main : ∀ (xs : List PyEvent) (u : Option String),
      uidFilter u (dedupEvents xs) = specRetainedSlot (uidFilter u xs) := by
    intro xs u
    have h := dedupGo xs [] []
      (fun v => by simp [pySetContains, uidFilter_nil])
      (fun v => by simp [uidFilter_nil]) u
    simp only [uidFilter_nil, specMergeSlot] at h
    simpa [dedupEvents] using h
  refine ⟨main, ?_⟩
  intro xs u e1 e2 hf hlt
  rw [main xs u, hf]
  simp only [specRetainedSlot, specFold, List.foldl_cons, List.foldl_nil]
  rw [if_pos hlt]

/-- C1 witness: two concrete deliveries of UID x with last-modified 1 < 2;
the duplicate filter keeps exactly the fresher one. -/
theorem c1_witness : uidFilter (some "x") (dedupEvents [c1e1, c1e2]) = [c1e2] :=
  c1_dedup_keeps_strictly_newest.2 [c1e1, c1e2] (some "x") c1e1 c1e2
    (by decide) (by decide)

/-- C2 counterexample: two events with equal DTSTART whose SUMMARY order is
the opposite of their description order.  The per-date ordering of
generate_overview emits the event with the larger description first,
because its tie-break compares SUMMARY (the title), not the description:
the claim that equal-start occurrences are ordered by description.primary
is false on the code. -/
theorem c2_counterexample :
    sortEventsForDate [c2a, c2b] = [c2b, c2a] ∧
    startKey c2a = startKey c2b ∧
    pyStrLt (legacyDescPrimary c2a.description).data
      (legacyDescPrimary c2b.description).data = true := by
  refine ⟨by decide, by decide, by decide⟩

/-- C2 amended: for two distinct occurrences with equal DTSTART, the
per-date ordering of generate_overview places the one with the
lexicographically smaller SUMMARY (title) first; the tie-break is by
title, not by description (and the EventSpan validator of events.py sorts
by start only, keeping input order on ties). -/
theorem c2_tiebreak_is_by_summary (a b : PyEvent) (hne : ¬ a = b)
    (hkey : startKey a = startKey b) :
    (pyStrLt b.summary.data a.summary.data = true →
      sortEventsForDate [a, b] = [b, a]) ∧
    (pyStrLt b.summary.data a.summary.data = false →
      sortEventsForDate [a, b] = [a, b]) := by
  have hd : a.startDay = b.startDay := congrArg Prod.fst hkey
  have hm : a.startMin = b.startMin := congrArg Prod.snd hkey
  have hlt : dtLt b a = false := by
    simp [dtLt, hd, hm]
  have hsort : sortStable dtLt [a, b] = [a, b] := by
    simp only [sortStable, sortInsert, hlt, Bool.false_eq_true, if_false]
  constructor
  · intro hs
    simp only [sortEventsForDate, hsort, tieGo]
    rw [if_neg (by simp [pyMem])]
    rw [if_pos ⟨hkey, hs⟩]
    simp [tieGo, pyMem]
  · intro hs
    simp only [sortEventsForDate, hsort, tieGo]
    rw [if_neg (by simp [pyMem])]
    rw [if_neg (fun hand => by rw [hs] at hand; exact Bool.false_ne_true hand.2)]
    simp [tieGo, pyMem, hne]

/-- C2 witness: the amended tie-break at the concrete same-start pair. -/
theorem c2_witness : sortEventsForDate [c2a, c2b] = [c2b, c2a] :=
  (c2_tiebreak_is_by_summary c2a c2b (by decide) (by decide)).1 (by decide)

/-- C3: the canonicalization chain of generate_overview (duplicate filter,
empty-SUMMARY drop, per-date ordering) is not idempotent: on three distinct
same-start events with SUMMARY values C, B, A a single application yields
the order B, C, A and a second application changes it to B, A, C, because
the ordering step is a single adjacent-swap pass rather than a sort.  The
spec requires canonicalize(canonicalize(x)) = canonicalize(x). -/
theorem c3_canonicalize_not_idempotent :
    canonicalizeDay (canonicalizeDay c3input) ≠ canonicalizeDay c3input := by
  decide

/-- C4 counterexample: a non-recurring event starting the day before the
window and ending the day after it satisfies the claimed inclusive overlap
test (start before window end and end after window start), yet the VEVENT
loop of generate_overview produces zero occurrences for it, because its
test only accepts events whose start date or end date lies inside the
window. -/
theorem c4_counterexample :
    materializeEvent ⟨0, 6⟩ c4ev = [] ∧ c4ev.rrule = none ∧
    c4ev.startDay ≤ 6 ∧ (0 : Int) ≤ c4ev.endDay ∧
    c4ev.startDay < 0 ∧ (6 : Int) < c4ev.endDay := by
  decide

/-- C4 amended: a source without a recurrence rule yields exactly one
occurrence precisely when its start date or its end date lies inside the
window (both bounds inclusive), and zero occurrences otherwise; in
particular a source spanning the whole window (start before window start,
end after window end) yields zero occurrences. -/
theorem c4_overlap_test (w : Window) (e : PyEvent) (h : e.rrule = none) :
    (materializeEvent w e = [e] ↔
      ((w.startOfWeek ≤ e.startDay ∧ e.startDay ≤ w.endOfWeek) ∨
       (w.startOfWeek ≤ e.endDay ∧ e.endDay ≤ w.endOfWeek))) ∧
    (e.startDay < w.startOfWeek → w.endOfWeek < e.endDay →
      materializeEvent w e = []) := by
  constructor
  · simp only [materializeEvent, h, List.append_nil]
    constructor
    · intro hm
      by_contra hcond
      rw [if_neg hcond] at hm
      exact List.noConfusion hm
    · intro hcond
      rw [if_pos hcond]
  · intro h1 h2
    simp only [materializeEvent, h, List.append_nil]
    rw [if_neg ?hcond]
    case hcond =>
      rintro (⟨ha, _⟩ | ⟨_, hb⟩)
      · omega
      · omega

/-- C4 witness: the amended statement applied to the spanning event. -/
theorem c4_witness : materializeEvent ⟨0, 6⟩ c4ev = [] :=
  (c4_overlap_test ⟨0, 6⟩ c4ev rfl).2 (by decide) (by decide)

/-- C5 counterexample: a weekly recurring event whose anchor lies inside
the window is emitted twice by the VEVENT loop of generate_overview - once
by the regular-event branch and once as the first expanded recurrence
instance - so the anchor date is represented twice in the materialized
output, contradicting the claim that recurring sources are materialized
exclusively through rule expansion. -/
theorem c5_counterexample :
    materializeEvent ⟨0, 6⟩ c5ev = [c5ev, recurCopy c5ev 2] ∧
    c5ev.rrule = some (Rrule.weekly 2) ∧
    ((materializeEvent ⟨0, 6⟩ c5ev).filter
      (fun x => decide (x.startDay = c5ev.startDay))).length = 2 := by
  decide

/-- C5 amended: a recurring source whose anchor start date passes the
window test is emitted through the regular-event branch in addition to its
rule expansion, and the expansion itself begins with a copy on the anchor
date, so the anchor date is represented twice in the materialized
output (the UID-based duplicate filter later collapses such pairs). -/
theorem c5_recurring_also_single_path (w : Window) (e : PyEvent) (c : Nat)
    (hr : e.rrule = some (Rrule.weekly (c + 1)))
    (h1 : w.startOfWeek ≤ e.startDay) (h2 : e.startDay ≤ w.endOfWeek) :
    materializeEvent w e = e :: expandRrule w e (Rrule.weekly (c + 1)) ∧
    (expandRrule w e (Rrule.weekly (c + 1))).head? =
      some (recurCopy e e.startDay) ∧
    (recurCopy e e.startDay).startDay = e.startDay := by
  refine ⟨?_, ?_, rfl⟩
  · simp only [materializeEvent, hr]
    rw [if_pos (Or.inl ⟨h1, h2⟩)]
    rfl
  · simp only [expandRrule, List.range_succ_eq_map, List.filterMap_cons,
      Nat.cast_zero, mul_zero, add_zero]
    rw [if_pos ⟨h1, h2⟩]
    rfl

/-- C5 witness: the amended statement at the concrete recurring event with
anchor day 2 in the window 0..6. -/
theorem c5_witness :
    materializeEvent ⟨0, 6⟩ c5ev = c5ev :: expandRrule ⟨0, 6⟩ c5ev (Rrule.weekly 2) ∧
    (expandRrule ⟨0, 6⟩ c5ev (Rrule.weekly 2)).head? =
      some (recurCopy c5ev c5ev.startDay) ∧
    (recurCopy c5ev c5ev.startDay).startDay = c5ev.startDay :=
  c5_recurring_also_single_path ⟨0, 6⟩ c5ev 1 rfl (by decide) (by decide)

/-- C6 counterexample: on a description with two delimiter runs,
Description.from_str splits on every run and keeps the first two stripped
segments, yielding de = a and en = b.  The claim predicts either
secondary = b---c (split on the first run only) or primary = secondary =
the whole cleaned text (fallback for a segment count other than two);
the code produces neither. -/
theorem c6_counterexample :
    Description.fromStr "a---b---c" = Except.ok ⟨"a", "b"⟩ ∧
    ("b" : String) ≠ "b---c" ∧ ("a" : String) ≠ "a---b---c" :=
  ⟨rfl, by decide, by decide⟩

/-- C6 amended: Description.from_str cleans the text and splits it on
every run of three or more - or _ characters.  The split always yields at
least one segment; with two or more stripped segments the model is built
from the first segment as primary and the second as secondary (an empty
second segment defaults to the primary text, later segments are ignored);
with exactly one segment (no delimiter) the missing secondary is passed as
None into a required str field, so construction raises a validation error
instead of falling back to the whole cleaned text. -/
theorem c6_split_all_runs :
    (∀ s : String, descSegments s ≠ []) ∧
    (∀ (s t1 : String), descSegments s = [t1] →
      Description.fromStr s = Except.error "ValidationError: en is not a string") ∧
    (∀ (s t1 t2 : String) (rest : List String),
      descSegments s = t1 :: t2 :: rest →
      Description.fromStr s = Except.ok ⟨t1, if t2 = "" then t1 else t2⟩) := by
  refine ⟨?_, ?_, ?_⟩
  · intro s
    simp only [descSegments, ne_eq, List.map_eq_nil_iff]
    exact splitRunsAux_ne_nil _ [] []
  · intro s t1 h
    simp [Description.fromStr, h, Description.validateFields]
  · intro s t1 t2 rest h
    simp only [Description.fromStr, h, List.getElem?_cons_zero,
      List.getElem?_cons_succ, Description.validateFields]
    by_cases ht1 : t1 = ""
    · subst ht1; simp
    · simp [ht1]

/-- C6 witness: the amended statement at the two scenario strings; the
delimiter-less description raises instead of falling back. -/
theorem c6_witness :
    Description.fromStr "Nur Deutsch" =
      Except.error "ValidationError: en is not a string" ∧
    Description.fromStr "Hallo Welt---Hello World" =
      Except.ok ⟨"Hallo Welt", "Hello World"⟩ := by
  constructor
  · exact c6_split_all_runs.2.1 "Nur Deutsch" "Nur Deutsch" (by decide)
  · have h := c6_split_all_runs.2.2 "Hallo Welt---Hello World"
      "Hallo Welt" "Hello World" [] (by decide)
    simpa using h

/-- C7: RenderableEventSpan.from_eventspan is not total - it fails on
every input.  The list comprehension rebinds the name events to the list
of projected records, and the return expression then evaluates
events.start on that list value, which raises AttributeError before any
record can be returned.  The claim that the projector is total and never
fails is contradicted by the code. -/
theorem c7_projector_always_raises (span : EventSpan) (lang : Lang) :
    RenderableEventSpan.fromEventspan span lang =
      Except.error "AttributeError: list object has no attribute start" := rfl

/-- C7 witness: the failure at a concrete empty span. -/
theorem c7_witness :
    RenderableEventSpan.fromEventspan ⟨0, 0, []⟩ Lang.de =
      Except.error "AttributeError: list object has no attribute start" :=
  c7_projector_always_raises ⟨0, 0, []⟩ Lang.de

/-- C8 counterexample: EventSpan.from_ical wraps whatever the expansion
collaborator returns without any canonicalization: a degenerate duplicate
pair with an empty title survives unchanged, whereas the canonicalization
step of the spec would at least drop empty-title occurrences (and
deduplicate), producing an empty list here. -/
theorem c8_counterexample :
    (EventSpan.fromIcal (fun _ _ _ => [c8ev, c8ev]) [] 0 6).events = [c8ev, c8ev] ∧
    c8ev.title.de = "" ∧
    ([c8ev, c8ev] : List MultiLangEvent) ≠ [] := by
  refine ⟨by decide, rfl, by decide⟩

/-- C8 amended: EventSpan.from_ical delegates materialization over the
window to the external recurrence-expansion collaborator and wraps the
window bounds together with the returned occurrences sorted ascending by
start; it applies no deduplication and no degenerate-event drop - the
wrapped sequence is exactly a start-sorted permutation of what the
collaborator returned. -/
theorem c8_fromical_only_sorts
    (expandBetween : Calendar → Int → Int → List MultiLangEvent)
    (cal : Calendar) (s e : Int) :
    (EventSpan.fromIcal expandBetween cal s e).start = s ∧
    (EventSpan.fromIcal expandBetween cal s e).end_ = e ∧
    (EventSpan.fromIcal expandBetween cal s e).events.Perm
      (expandBetween cal s e) ∧
    (EventSpan.fromIcal expandBetween cal s e).events.Pairwise
      (fun a b => a.start ≤ b.start) :=
  ⟨rfl, rfl, sortStable_perm _ _, sortByKey_pairwise _ _⟩

/-- C8 witness: the amended statement at a concrete one-element
collaborator result. -/
theorem c8_witness :
    (EventSpan.fromIcal (fun _ _ _ => [c8ev]) [] 0 6).start = 0 ∧
    (EventSpan.fromIcal (fun _ _ _ => [c8ev]) [] 0 6).end_ = 6 ∧
    (EventSpan.fromIcal (fun _ _ _ => [c8ev]) [] 0 6).events.Perm [c8ev] ∧
    (EventSpan.fromIcal (fun _ _ _ => [c8ev]) [] 0 6).events.Pairwise
      (fun a b => a.start ≤ b.start) :=
  c8_fromical_only_sorts (fun _ _ _ => [c8ev]) [] 0 6

/-- C9 counterexample: the markup cleaning of Description.from_str removes
the line-break tag br/ like any other tag, instead of preserving it
verbatim as the claim states. -/
theorem c9_counterexample :
    cleanDescription "Hallo<br/>Welt" = "HalloWelt" ∧
    ("HalloWelt" : String) ≠ "Hallo<br/>Welt" := by
  refine ⟨by decide, by decide⟩

/-- C9 amended: the two cleaning steps differ.  The legacy
generate_overview cleaning preserves a br/ tag verbatim and removes every
other tag; the cleaning of Description.from_str in events.py removes every
tag, the line-break tag included. -/
theorem c9_tag_cleaning_split :
    (∀ a b : List Char, '<' ∉ a → '<' ∉ b →
      stripTagsKeepBr (a ++ '<' :: 'b' :: 'r' :: '/' :: '>' :: b) =
        a ++ '<' :: 'b' :: 'r' :: '/' :: '>' :: b) ∧
    (∀ a t b : List Char, '<' ∉ a → '<' ∉ b → '>' ∉ t → '\n' ∉ t →
      brLookahead (t ++ '>' :: b) = false →
      stripTagsKeepBr (a ++ '<' :: (t ++ '>' :: b)) = a ++ b) ∧
    (∀ a t b : List Char, '<' ∉ a → '<' ∉ b → '>' ∉ t → '\n' ∉ t →
      stripTags (a ++ '<' :: (t ++ '>' :: b)) = a ++ b) := by
  refine ⟨?_, ?_, ?_⟩
  · intro a b ha hb
    show stripAux true (a ++ '<' :: 'b' :: 'r' :: '/' :: '>' :: b) [] = _
    rw [stripAux_copy true a _ ha]
    congr 1
    have step : stripAux true ('<' :: 'b' :: 'r' :: '/' :: '>' :: b) [] =
        '<' :: 'b' :: 'r' :: '/' :: '>' :: stripAux true b [] := rfl
    rw [step, stripAux_copy_all true b hb]
  · intro a t b ha hb ht hn hla
    show stripAux true (a ++ '<' :: (t ++ '>' :: b)) [] = a ++ b
    rw [stripAux_copy true a _ ha]
    congr 1
    have h1 : stripAux true ('<' :: (t ++ '>' :: b)) [] =
        stripAux true (t ++ '>' :: b) ['<'] := by
      simp [stripAux, hla]
    rw [h1, stripAux_consume true t b ['<'] rfl ht hn, stripAux_copy_all true b hb]
  · intro a t b ha hb ht hn
    show stripAux false (a ++ '<' :: (t ++ '>' :: b)) [] = a ++ b
    rw [stripAux_copy false a _ ha]
    congr 1
    have h1 : stripAux false ('<' :: (t ++ '>' :: b)) [] =
        stripAux false (t ++ '>' :: b) ['<'] := by
      simp [stripAux]
    rw [h1, stripAux_consume false t b ['<'] rfl ht hn, stripAux_copy_all false b hb]

/-- C9 witness: the amended statement at concrete surroundings, with the
third part instantiated at the line-break tag itself, showing the
events.py cleaner removes it. -/
theorem c9_witness :
    stripTagsKeepBr ("A".data ++ '<' :: 'b' :: 'r' :: '/' :: '>' :: "B".data) =
      "A".data ++ '<' :: 'b' :: 'r' :: '/' :: '>' :: "B".data ∧
    stripTagsKeepBr ("A".data ++ '<' :: ("i".data ++ '>' :: "B".data)) =
      "A".data ++ "B".data ∧
    stripTags ("A".data ++ '<' :: ("br/".data ++ '>' :: "B".data)) =
      "A".data ++ "B".data :=
  ⟨c9_tag_cleaning_split.1 "A".data "B".data (by decide) (by decide),
   c9_tag_cleaning_split.2.1 "A".data "i".data "B".data
     (by decide) (by decide) (by decide) (by decide) (by decide),
   c9_tag_cleaning_split.2.2 "A".data "br/".data "B".data
     (by decide) (by decide) (by decide) (by decide)⟩

/-- C10: MultiLangEvent.from_ical passes the value of
ical_event.get(LOCATION) - None for a location-less entry - explicitly as
the place argument, so pydantic validation fails and no event carrying the
declared default place is produced; the default applies only when the
place argument is omitted entirely. -/
theorem c10_missing_location_fails :
    (∀ ev : IcalEvent, ev.location = none →
      ∃ msg, MultiLangEvent.fromIcal ev = Except.error msg) ∧
    (∀ (s e : Int) (t : Title) (d : Description),
      MultiLangEvent.construct s e t d none =
        Except.ok ⟨s, e, t, d, defaultPlace⟩) := by
  constructor
  · intro ev h
    simp only [MultiLangEvent.fromIcal]
    cases ht : Title.fromStr ev.summary with
    | error m => exact ⟨m, rfl⟩
    | ok t =>
      cases hd : Description.fromStr ev.description with
      | error m => exact ⟨m, rfl⟩
      | ok d =>
        rw [h]
        exact ⟨"ValidationError: place is not a string", rfl⟩
  · intro s e t d
    rfl

/-- C10 witness: the concrete location-less entry fails, and an omitted
place argument takes the declared default. -/
theorem c10_witness :
    (∃ msg, MultiLangEvent.fromIcal c10ev = Except.error msg) ∧
    MultiLangEvent.construct 0 1 ⟨"T", "T"⟩ ⟨"D", "D"⟩ none =
      Except.ok ⟨0, 1, ⟨"T", "T"⟩, ⟨"D", "D"⟩, defaultPlace⟩ :=
  ⟨c10_missing_location_fails.1 c10ev rfl,
   c10_missing_location_fails.2 0 1 ⟨"T", "T"⟩ ⟨"D", "D"⟩⟩
